import Mathlib

/-!
# Verification of the tx2-pack snapshot-packaging engine

A shallow embedding of the tx2-pack Rust sources (format.rs, error.rs,
compression.rs, encryption.rs, storage.rs, metadata.rs, checkpoint.rs,
replay.rs) together with proofs about the embedded operations.

Modelling conventions:
* Machine integers (`u8`, `u32`, `u64`, `usize`) are embedded as `Nat`; none
  of the verified operations can overflow them.  `i64` is embedded as `Int`.
* Byte buffers (`Vec<u8>`, `&[u8]`) are embedded as `List Nat`.
* `f64` time values are embedded by `F64`: either an exact finite value
  (carried as a rational) or NaN.  The verified code only compares, subtracts
  and takes absolute values of times, which this model reflects; `partial_cmp`
  returning `None` on NaN (and the subsequent `unwrap` panic) is modelled by
  `Option`-valued operations.
* External libraries (bincode, rmp-serde, zstd, lz4, aes-gcm, sha2) are not
  part of this repository; they enter the embedding as the explicit record of
  functions `ExternalCodecs`, and the library behaviour each theorem relies
  on (e.g. a serialize/deserialize round trip) is stated as an explicit
  hypothesis at exactly the values at which the code invokes the library.
* Fresh randomness (the AES-GCM nonce drawn from `OsRng`) is made explicit as
  an `rng` byte-list argument to the write pipeline.
* Rust methods taking `&mut self` are embedded as functions from the state to
  a (result, new state) pair; a Rust panic is modelled by `Option.none`.
-/

namespace Tx2Pack

/-- Byte buffers (`Vec<u8>`) are lists of naturals. -/
abbrev Bytes := List Nat

/-! ## `f64` time values (replay.rs uses `f64` for the time axis) -/

/-- Model of an `f64` time value: an exact finite value or NaN.  The
infinities never arise in the verified claims and are not modelled. -/
inductive F64 where
  | finite : ℚ → F64
  | nan : F64
deriving DecidableEq, Repr

namespace F64

/-- Model of Rust `f64::partial_cmp`: `None` whenever NaN is involved. -/
def pcmp : F64 → F64 → Option Ordering
  | finite a, finite b => some (compare a b)
  | _, _ => none

/-- Model of Rust `f64 < f64` (strict, `false` when NaN is involved). -/
def blt : F64 → F64 → Bool
  | finite a, finite b => decide (a < b)
  | _, _ => false

/-- Model of Rust `f64 > f64` (strict, `false` when NaN is involved). -/
def bgt : F64 → F64 → Bool
  | finite a, finite b => decide (b < a)
  | _, _ => false

/-- Model of Rust `f64` subtraction (NaN-propagating). -/
def sub : F64 → F64 → F64
  | finite a, finite b => finite (a - b)
  | _, _ => nan

/-- Model of Rust `f64::abs` (NaN-propagating). -/
def fabs : F64 → F64
  | finite a => finite |a|
  | nan => nan

end F64

/-! ## Error taxonomy (error.rs) -/

/-- `PackError` from error.rs.  The payload of `Io`, `Bincode`, `MsgPackEncode`,
`MsgPackDecode` and `Json` (library error values) is carried as a string. -/
inductive PackError where
  | ioErr : String → PackError
  | serializationErr : String → PackError
  | deserializationErr : String → PackError
  | compressionErr : String → PackError
  | decompressionErr : String → PackError
  | encryptionErr : String → PackError
  | decryptionErr : String → PackError
  | invalidFormat : String → PackError
  | versionMismatch : String → String → PackError
  | checksumMismatch : PackError
  | snapshotNotFound : String → PackError
  | invalidCheckpoint : String → PackError
  | bincodeErr : String → PackError
  | msgPackEncodeErr : String → PackError
  | msgPackDecodeErr : String → PackError
  | jsonErr : String → PackError
  | unknown : String → PackError
deriving DecidableEq, Repr

/-! ## Container format model (format.rs) -/

/-- `MAGIC_NUMBER: &[u8; 8] = b"TX2PACK\0"`. -/
def MAGIC_NUMBER : Bytes := [84, 88, 50, 80, 65, 67, 75, 0]

/-- `FORMAT_VERSION: u32 = 1`. -/
def FORMAT_VERSION : Nat := 1

/-- `PackFormat` from format.rs. -/
inductive PackFormat where
  | bincode
  | messagePack
  | custom
deriving DecidableEq, Repr

/-- `CompressionType` from format.rs (the codec *family* stored in headers). -/
inductive CompressionType where
  | none
  | zstd
  | lz4
deriving DecidableEq, Repr

/-- `SnapshotHeader` from format.rs.  `magic` and `checksum` are byte lists
(`[u8; 8]` and `[u8; 32]` in Rust); the `u64` offsets/sizes are `Nat`. -/
structure SnapshotHeader where
  magic : Bytes
  version : Nat
  format : PackFormat
  compression : CompressionType
  encrypted : Bool
  checksum : Bytes
  timestamp : Int
  entity_count : Nat
  component_count : Nat
  archetype_count : Nat
  data_offset : Nat
  data_size : Nat
  metadata_offset : Nat
  metadata_size : Nat
deriving DecidableEq, Repr

/-- `SnapshotHeader::new()` from format.rs; the `chrono::Utc::now()` timestamp
is passed in explicitly. -/
def SnapshotHeader.new (now : Int) : SnapshotHeader where
  magic := MAGIC_NUMBER
  version := FORMAT_VERSION
  format := .bincode
  compression := .zstd
  encrypted := false
  checksum := List.replicate 32 0
  timestamp := now
  entity_count := 0
  component_count := 0
  archetype_count := 0
  data_offset := 0
  data_size := 0
  metadata_offset := 0
  metadata_size := 0

/-- `SnapshotHeader::validate()` from format.rs. -/
def SnapshotHeader.validate (h : SnapshotHeader) : Except PackError Unit :=
  if h.magic ≠ MAGIC_NUMBER then
    .error (.invalidFormat "Invalid magic number")
  else if h.version ≠ FORMAT_VERSION then
    .error (.versionMismatch (toString FORMAT_VERSION) (toString h.version))
  else
    .ok ()

/-- `FieldType` from format.rs. -/
inductive FieldType where
  | bool | i8 | i16 | i32 | i64 | u8 | u16 | u32 | u64 | f32 | f64 | string | bytes
deriving DecidableEq, Repr

/-- `FieldArray` from format.rs.  Signed integer payloads are `Int`, unsigned
are `Nat`, floats use the `F64` model. -/
inductive FieldArray where
  | bool : List Bool → FieldArray
  | i8 : List Int → FieldArray
  | i16 : List Int → FieldArray
  | i32 : List Int → FieldArray
  | i64 : List Int → FieldArray
  | u8 : List Nat → FieldArray
  | u16 : List Nat → FieldArray
  | u32 : List Nat → FieldArray
  | u64 : List Nat → FieldArray
  | f32 : List F64 → FieldArray
  | f64 : List F64 → FieldArray
  | string : List String → FieldArray
  | bytes : List Bytes → FieldArray
deriving DecidableEq, Repr

/-- `StructOfArraysData` from format.rs. -/
structure StructOfArraysData where
  field_names : List String
  field_types : List FieldType
  field_data : List FieldArray
deriving DecidableEq, Repr

/-- `ComponentData` from format.rs. -/
inductive ComponentData where
  | structOfArrays : StructOfArraysData → ComponentData
  | blob : Bytes → ComponentData
deriving DecidableEq, Repr

/-- `ComponentArchetype` from format.rs (`EntityId` is an opaque `u32`,
`ComponentId` an opaque string, per the upstream `tx2_link` types). -/
structure ComponentArchetype where
  component_id : String
  entity_ids : List Nat
  data : ComponentData
deriving DecidableEq, Repr

/-- `EntityMetadata` from format.rs. -/
structure EntityMetadata where
  created_at : Int
  modified_at : Int
  tags : List String
deriving DecidableEq, Repr

/-- `PackedSnapshot` from format.rs.  The `HashMap<EntityId, EntityMetadata>`
is embedded as an association list. -/
structure PackedSnapshot where
  header : SnapshotHeader
  archetypes : List ComponentArchetype
  entity_metadata : List (Nat × EntityMetadata)
deriving DecidableEq, Repr

/-- `PackedSnapshot::new()` from format.rs (timestamp passed explicitly). -/
def PackedSnapshot.new (now : Int) : PackedSnapshot where
  header := SnapshotHeader.new now
  archetypes := []
  entity_metadata := []

/-! ## Metadata sidecar (metadata.rs) -/

/-- `SnapshotMetadata` from metadata.rs (`world_time: f64` uses the `F64`
model; `custom_fields` is an association list). -/
structure SnapshotMetadata where
  id : String
  name : Option String
  description : Option String
  created_at : Int
  world_time : F64
  schema_version : Nat
  custom_fields : List (String × String)
  tags : List String
deriving DecidableEq, Repr

/-- `SnapshotMetadata::new(id)` from metadata.rs (`chrono::Utc::now()` passed
explicitly). -/
def SnapshotMetadata.new (id : String) (now : Int) : SnapshotMetadata where
  id := id
  name := none
  description := none
  created_at := now
  world_time := F64.finite 0
  schema_version := 1
  custom_fields := []
  tags := []

/-! ## Checkpoints (checkpoint.rs) -/

/-- `Checkpoint` from checkpoint.rs. -/
structure Checkpoint where
  id : String
  snapshot : PackedSnapshot
  metadata : SnapshotMetadata
  parent_id : Option String
deriving DecidableEq, Repr

/-- `Checkpoint::new(id, snapshot)` from checkpoint.rs. -/
def Checkpoint.new (id : String) (snapshot : PackedSnapshot) (now : Int) : Checkpoint where
  id := id
  snapshot := snapshot
  metadata := SnapshotMetadata.new id now
  parent_id := none

/-- `Checkpoint::with_parent` from checkpoint.rs. -/
def Checkpoint.with_parent (c : Checkpoint) (parent_id : String) : Checkpoint :=
  { c with parent_id := some parent_id }

/-- In-memory state of `CheckpointManager` from checkpoint.rs: the
`AHashMap<String, Checkpoint>` cache is embedded as an association list with
unique keys, the chain as a list of ids.  The `store`, `writer` and `reader`
fields only mediate filesystem effects; those effects enter each operation as
an explicit outcome argument. -/
structure CheckpointManager where
  checkpoints : List (String × Checkpoint)
  checkpoint_chain : List String
deriving DecidableEq, Repr

/-- `AHashMap::insert`: replace any existing binding for the key, add the
binding otherwise.  (Bucket order is irrelevant to every claim; only the
key-to-value mapping is observable.) -/
def insertAssoc (m : List (String × Checkpoint)) (k : String) (v : Checkpoint) :
    List (String × Checkpoint) :=
  (k, v) :: m.filter (fun p => p.1 ≠ k)

/-- `AHashMap::remove` (value discarded). -/
def removeAssoc (m : List (String × Checkpoint)) (k : String) :
    List (String × Checkpoint) :=
  m.filter (fun p => p.1 ≠ k)

/-- `AHashMap::get`. -/
def getAssoc (m : List (String × Checkpoint)) (k : String) : Option Checkpoint :=
  (m.find? (fun p => p.1 = k)).map Prod.snd

/-- `CheckpointManager::create_checkpoint` from checkpoint.rs.  The outcome of
`self.store.save(..)` (a filesystem effect) is the explicit `saveResult`
argument; `now` stands for `chrono::Utc::now()` inside `SnapshotMetadata::new`.
Returns the manager state after the call together with the call's result. -/
def CheckpointManager.create_checkpoint (m : CheckpointManager) (id : String)
    (snapshot : PackedSnapshot) (now : Int) (saveResult : Except PackError Unit) :
    CheckpointManager × Except PackError Unit :=
  let parent_id := m.checkpoint_chain.getLast?
  let checkpoint := Checkpoint.new id snapshot now
  let checkpoint := match parent_id with
    | some parent => checkpoint.with_parent parent
    | none => checkpoint
  match saveResult with
  | .error e => (m, .error e)
  | .ok _ =>
      ({ m with
          checkpoint_chain := m.checkpoint_chain ++ [id],
          checkpoints := insertAssoc m.checkpoints id checkpoint }, .ok ())

/-- `CheckpointManager::delete_checkpoint` from checkpoint.rs.  The outcome of
`self.store.delete(id)` is supplied by the oracle `storeDelete`. -/
def CheckpointManager.delete_checkpoint (storeDelete : String → Except PackError Unit)
    (m : CheckpointManager) (id : String) : CheckpointManager × Except PackError Unit :=
  match storeDelete id with
  | .error e => (m, .error e)
  | .ok _ =>
      ({ m with
          checkpoints := removeAssoc m.checkpoints id,
          checkpoint_chain := m.checkpoint_chain.filter (fun cid => cid ≠ id) }, .ok ())

/-- The `for id in self.checkpoint_chain.clone() { self.delete_checkpoint(&id)?; }`
loop of `clear_all_checkpoints`, threading the manager state. -/
def clearAllLoop (storeDelete : String → Except PackError Unit) :
    CheckpointManager → List String → CheckpointManager × Except PackError Unit
  | m, [] => (m, .ok ())
  | m, id :: rest =>
      match CheckpointManager.delete_checkpoint storeDelete m id with
      | (m', .ok _) => clearAllLoop storeDelete m' rest
      | (m', .error e) => (m', .error e)

/-- `CheckpointManager::clear_all_checkpoints` from checkpoint.rs: iterate over
a clone of the chain, deleting each id. -/
def CheckpointManager.clear_all_checkpoints (storeDelete : String → Except PackError Unit)
    (m : CheckpointManager) : CheckpointManager × Except PackError Unit :=
  clearAllLoop storeDelete m m.checkpoint_chain

/-- `CheckpointManager::load_checkpoint` from checkpoint.rs.  The outcome of
`self.store.load(id, &self.reader)` is the explicit `loadResult` argument.
On a cache miss with a successful store load, the freshly built checkpoint
(with `parent_id = None`) is inserted into the cache. -/
def CheckpointManager.load_checkpoint (m : CheckpointManager) (id : String)
    (loadResult : Except PackError (PackedSnapshot × SnapshotMetadata)) :
    CheckpointManager × Except PackError Checkpoint :=
  match getAssoc m.checkpoints id with
  | some checkpoint => (m, .ok checkpoint)
  | none =>
      match loadResult with
      | .error e => (m, .error e)
      | .ok (snapshot, metadata) =>
          let checkpoint : Checkpoint :=
            { id := id, snapshot := snapshot, metadata := metadata, parent_id := none }
          ({ m with checkpoints := insertAssoc m.checkpoints id checkpoint },
           .ok checkpoint)

/-! ## Replay cursor (replay.rs, `ReplayEngine`) -/

/-- `ReplayEngine` from replay.rs (the `VecDeque<Checkpoint>` is a list). -/
structure ReplayEngine where
  checkpoints : List Checkpoint
  current_index : Nat
  loop_replay : Bool
deriving DecidableEq, Repr

namespace ReplayEngine

/-- `ReplayEngine::new()`. -/
def new : ReplayEngine := ⟨[], 0, false⟩

/-- `ReplayEngine::current()`: `self.checkpoints.get(self.current_index)`. -/
def current (e : ReplayEngine) : Option Checkpoint :=
  e.checkpoints[e.current_index]?

/-- `ReplayEngine::get_index()`. -/
def get_index (e : ReplayEngine) : Nat := e.current_index

/-- `ReplayEngine::len()`. -/
def len (e : ReplayEngine) : Nat := e.checkpoints.length

/-- `ReplayEngine::next()` from replay.rs, returning the yielded checkpoint
and the updated engine. -/
def next (e : ReplayEngine) : Option Checkpoint × ReplayEngine :=
  if e.current_index + 1 < e.checkpoints.length then
    let e' := { e with current_index := e.current_index + 1 }
    (e'.current, e')
  else if e.loop_replay ∧ ¬ e.checkpoints.isEmpty then
    let e' := { e with current_index := 0 }
    (e'.current, e')
  else
    (none, e)

/-- `ReplayEngine::previous()` from replay.rs. -/
def previous (e : ReplayEngine) : Option Checkpoint × ReplayEngine :=
  if e.current_index > 0 then
    let e' := { e with current_index := e.current_index - 1 }
    (e'.current, e')
  else if e.loop_replay ∧ ¬ e.checkpoints.isEmpty then
    let e' := { e with current_index := e.checkpoints.length - 1 }
    (e'.current, e')
  else
    (none, e)

/-- `ReplayEngine::seek(index)` from replay.rs. -/
def seek (e : ReplayEngine) (index : Nat) : Except PackError Checkpoint × ReplayEngine :=
  if index ≥ e.checkpoints.length then
    (.error (.invalidCheckpoint ("Index " ++ toString index ++ " out of bounds")), e)
  else
    let e' := { e with current_index := index }
    match e'.current with
    | some c => (.ok c, e')
    | none => (.error (.invalidCheckpoint "No checkpoint at index"), e')

end ReplayEngine

/-! ## Time-indexed replay (replay.rs, `TimeTravel`) -/

/-- `TimeTravel` from replay.rs: `(f64, PackedSnapshot)` pairs plus
`current_time: f64`. -/
structure TimeTravel where
  snapshots : List (F64 × PackedSnapshot)
  current_time : F64
deriving DecidableEq, Repr

namespace TimeTravel

/-- `TimeTravel::new()`. -/
def new : TimeTravel := ⟨[], F64.finite 0⟩

/-- One insertion step of the stable sort performed by
`self.snapshots.sort_by(|a, b| a.0.partial_cmp(&b.0).unwrap())`: place `x`
before the first element it does not strictly exceed.  `none` models the
panic of `unwrap` when `partial_cmp` returns `None` (a NaN comparison). -/
def insertByTime (x : F64 × PackedSnapshot) :
    List (F64 × PackedSnapshot) → Option (List (F64 × PackedSnapshot))
  | [] => some [x]
  | y :: ys =>
      match F64.pcmp x.1 y.1 with
      | none => none
      | some o =>
          if o = Ordering.gt then (insertByTime x ys).map (fun zs => y :: zs)
          else some (x :: y :: ys)

/-- The stable comparison sort of `sort_by`, modelled as insertion sort (any
stable sort computes the same list); `none` models a comparator panic, which
occurs exactly when two elements with no defined order are compared. -/
def sortByTime : List (F64 × PackedSnapshot) → Option (List (F64 × PackedSnapshot))
  | [] => some []
  | x :: xs => (sortByTime xs).bind (insertByTime x)

/-- `TimeTravel::record(time, snapshot)` from replay.rs: push the sample,
re-sort by time, set `current_time`.  The result is `none` when the sort's
comparator panics (NaN involved in a performed comparison). -/
def record (tt : TimeTravel) (time : F64) (snapshot : PackedSnapshot) : Option TimeTravel :=
  match sortByTime (tt.snapshots ++ [(time, snapshot)]) with
  | none => none
  | some sorted => some { snapshots := sorted, current_time := time }

/-- The `while left < right` binary-search loop of `find_snapshot_at_time`,
made structurally recursive on a fuel argument.  The loop gap `right - left`
strictly decreases each iteration, so `times.length` fuel always suffices
(proved in `lowerBoundAux_spec`). -/
def lowerBoundAux (times : List F64) (target : F64) :
    Nat → Nat → Nat → Nat
  | 0, left, _ => left
  | fuel + 1, left, right =>
      if left < right then
        let mid := (left + right) / 2
        if F64.blt (times.getD mid F64.nan) target then
          lowerBoundAux times target fuel (mid + 1) right
        else
          lowerBoundAux times target fuel left mid
      else
        left

/-- `TimeTravel::find_snapshot_at_time(target_time)` from replay.rs. -/
def find_snapshot_at_time (tt : TimeTravel) (target_time : F64) : Option Nat :=
  if tt.snapshots.isEmpty then
    none
  else
    let times := tt.snapshots.map Prod.fst
    let n := tt.snapshots.length
    let left := lowerBoundAux times target_time n 0 n
    if left > 0 ∧
        (left ≥ n ∨
          F64.bgt (F64.fabs (F64.sub (times.getD left F64.nan) target_time))
            (F64.fabs (F64.sub target_time (times.getD (left - 1) F64.nan)))) then
      some (left - 1)
    else if left < n then
      some left
    else if left > 0 then
      some (left - 1)
    else
      none

end TimeTravel

/-! ## Compression codec (compression.rs) -/

/-- `CompressionCodec` from compression.rs (zstd carries its level). -/
inductive CompressionCodec where
  | none
  | zstd : Int → CompressionCodec
  | lz4
deriving DecidableEq, Repr

/-- `CompressionCodec::zstd_default()`. -/
def CompressionCodec.zstd_default : CompressionCodec := .zstd 3

/-- `impl From<CompressionCodec> for CompressionType` from compression.rs. -/
def codecToType : CompressionCodec → CompressionType
  | .none => .none
  | .zstd _ => .zstd
  | .lz4 => .lz4

/-- The external libraries used by the pipeline (bincode, rmp-serde, zstd,
lz4, aes-gcm, sha2).  They are not code of this repository; the pipeline is
embedded as a function of this record, and each theorem states the library
behaviour it relies on as an explicit hypothesis.  Per the specification,
`zstdCompress`/`lz4Compress` model the successful library result (compression
is fallible only on library errors); `zstdDecompress` takes the output
capacity bound passed by the caller. -/
structure ExternalCodecs where
  bincodeSer : PackedSnapshot → Bytes
  bincodeDeser : Bytes → Except String PackedSnapshot
  msgpackSer : PackedSnapshot → Bytes
  msgpackDeser : Bytes → Except String PackedSnapshot
  headerSer : SnapshotHeader → Bytes
  headerDeser : Bytes → Except String SnapshotHeader
  zstdCompress : Int → Bytes → Bytes
  zstdDecompress : Bytes → Nat → Except String Bytes
  lz4Compress : Bytes → Bytes
  lz4Decompress : Bytes → Except String Bytes
  aesEncrypt : Bytes → Bytes → Bytes → Bytes
  aesDecrypt : Bytes → Bytes → Bytes → Except String Bytes
  sha256 : Bytes → Bytes

/-- `compress(data, codec)` from compression.rs. -/
def compress (L : ExternalCodecs) (data : Bytes) (codec : CompressionCodec) :
    Except PackError Bytes :=
  match codec with
  | .none => .ok data
  | .zstd level => .ok (L.zstdCompress level data)
  | .lz4 => .ok (L.lz4Compress data)

/-- `decompress(data, compression_type)` from compression.rs; the zstd path
caps the output at `100 * 1024 * 1024` bytes. -/
def decompress (L : ExternalCodecs) (data : Bytes) (compression_type : CompressionType) :
    Except PackError Bytes :=
  match compression_type with
  | .none => .ok data
  | .zstd =>
      match L.zstdDecompress data (100 * 1024 * 1024) with
      | .ok d => .ok d
      | .error e => .error (.decompressionErr e)
  | .lz4 =>
      match L.lz4Decompress data with
      | .ok d => .ok d
      | .error e => .error (.decompressionErr e)

/-! ## Authenticated encryption (encryption.rs, feature `encryption` enabled) -/

/-- `EncryptionKey` from encryption.rs (a 32-byte key). -/
structure EncryptionKey where
  key : Bytes
deriving DecidableEq, Repr

/-- `encrypt_snapshot(data, key)` from encryption.rs: draw a fresh 12-byte
nonce from the RNG (made explicit as the `rng` argument) and emit
`nonce || ciphertext`. -/
def encrypt_snapshot (L : ExternalCodecs) (data : Bytes) (key : EncryptionKey)
    (rng : Bytes) : Except PackError Bytes :=
  let nonce := rng.take 12
  .ok (nonce ++ L.aesEncrypt key.key nonce data)

/-- `decrypt_snapshot(data, key)` from encryption.rs. -/
def decrypt_snapshot (L : ExternalCodecs) (data : Bytes) (key : EncryptionKey) :
    Except PackError Bytes :=
  if data.length < 12 then
    .error (.decryptionErr "Encrypted data too short")
  else
    match L.aesDecrypt key.key (data.take 12) (data.drop 12) with
    | .ok p => .ok p
    | .error e => .error (.decryptionErr e)

/-! ## Writer/Reader codec (storage.rs) -/

/-- `SnapshotWriter` from storage.rs (feature `encryption` enabled). -/
structure SnapshotWriter where
  compression : CompressionCodec
  encryption_key : Option EncryptionKey

/-- `SnapshotWriter::new()`. -/
def SnapshotWriter.new : SnapshotWriter := ⟨CompressionCodec.zstd_default, none⟩

/-- `SnapshotReader` from storage.rs (feature `encryption` enabled). -/
structure SnapshotReader where
  encryption_key : Option EncryptionKey

/-- `SnapshotWriter::serialize_snapshot` from storage.rs. -/
def serialize_snapshot (L : ExternalCodecs) (snapshot : PackedSnapshot) :
    Except PackError Bytes :=
  match snapshot.header.format with
  | .bincode => .ok (L.bincodeSer snapshot)
  | .messagePack => .ok (L.msgpackSer snapshot)
  | .custom => .error (.serializationErr "Custom format not implemented")

/-- `SnapshotReader::deserialize_snapshot` from storage.rs. -/
def deserialize_snapshot (L : ExternalCodecs) (data : Bytes) (format : PackFormat) :
    Except PackError PackedSnapshot :=
  match format with
  | .bincode =>
      match L.bincodeDeser data with
      | .ok s => .ok s
      | .error e => .error (.deserializationErr e)
  | .messagePack =>
      match L.msgpackDeser data with
      | .ok s => .ok s
      | .error e => .error (.deserializationErr e)
  | .custom => .error (.deserializationErr "Custom format not implemented")

/-- `SnapshotWriter::compute_checksum` from storage.rs (SHA-256). -/
def compute_checksum (L : ExternalCodecs) (data : Bytes) : Bytes :=
  L.sha256 data

/-- `SnapshotReader::verify_checksum` from storage.rs. -/
def verify_checksum (L : ExternalCodecs) (data : Bytes) (expected : Bytes) :
    Except PackError Unit :=
  if L.sha256 data ≠ expected then .error .checksumMismatch else .ok ()

/-- `SnapshotWriter::write_to_bytes` from storage.rs (feature `encryption`
enabled; the AES-GCM nonce source is the explicit `rng` argument):
serialize, compress, optionally encrypt, then build the final header —
copying the snapshot's header and setting `compression`, `encrypted`,
`checksum`, `data_size` — serialize it once to measure, patch `data_offset`,
serialize again, and emit `final_header_bytes ++ final_data`. -/
def write_to_bytes (L : ExternalCodecs) (w : SnapshotWriter)
    (snapshot : PackedSnapshot) (rng : Bytes) : Except PackError Bytes := do
  let serialized ← serialize_snapshot L snapshot
  let compressed ← compress L serialized w.compression
  let final_data ←
    match w.encryption_key with
    | some key => encrypt_snapshot L compressed key rng
    | none => pure compressed
  let header := { snapshot.header with
    compression := codecToType w.compression,
    encrypted := w.encryption_key.isSome,
    checksum := compute_checksum L final_data,
    data_size := final_data.length }
  let header_bytes := L.headerSer header
  let header := { header with data_offset := header_bytes.length }
  let final_header_bytes := L.headerSer header
  pure (final_header_bytes ++ final_data)

/-- `SnapshotReader::read_from_bytes` from storage.rs (feature `encryption`
enabled): parse and validate the header, bounds-check the payload slice,
verify its checksum, decrypt if the header says so, decompress, and
deserialize the body. -/
def read_from_bytes (L : ExternalCodecs) (r : SnapshotReader) (bytes : Bytes) :
    Except PackError PackedSnapshot := do
  let header ←
    match L.headerDeser bytes with
    | .ok h => pure h
    | .error e => throw (.bincodeErr e)
  let _ ← header.validate
  let data_start := header.data_offset
  let data_end := data_start + header.data_size
  if data_end > bytes.length then
    throw (.invalidFormat
      ("Data end " ++ toString data_end ++ " exceeds buffer length " ++
        toString bytes.length))
  else
    let data := (bytes.drop data_start).take header.data_size
    let _ ← verify_checksum L data header.checksum
    let decompressed ←
      if header.encrypted then
        match r.encryption_key with
        | none => throw (.decryptionErr "No encryption key provided")
        | some key => do
            let decrypted ← decrypt_snapshot L data key
            decompress L decrypted header.compression
      else
        decompress L data header.compression
    deserialize_snapshot L decompressed header.format

/-! ## Concrete instances of the external libraries

Executable stand-ins for the external libraries, used to evaluate the
pipeline at concrete inputs.  They satisfy the library contracts that the
theorems assume (header prefix round trip, encoded-length stability under
`data_offset` changes, compression round trips, the zstd output cap), which
is proved below. -/

/-- Length-prefixed encoding of a byte list. -/
def lenSer (xs : Bytes) : Bytes := xs.length :: xs

/-- Decode one length-prefixed byte list, returning it and the remainder. -/
def splitLen : Bytes → Option (Bytes × Bytes)
  | [] => Option.none
  | n :: rest =>
      if n ≤ rest.length then some (rest.take n, rest.drop n) else Option.none

/-- Wire tag of a `PackFormat`. -/
def fmtTag : PackFormat → Nat
  | .bincode => 0
  | .messagePack => 1
  | .custom => 2

/-- Decode a `PackFormat` tag. -/
def fmtOfTag : Nat → Option PackFormat
  | 0 => some .bincode
  | 1 => some .messagePack
  | 2 => some .custom
  | _ => Option.none

/-- Wire tag of a `CompressionType`. -/
def compTag : CompressionType → Nat
  | .none => 0
  | .zstd => 1
  | .lz4 => 2

/-- Decode a `CompressionType` tag. -/
def compOfTag : Nat → Option CompressionType
  | 0 => some .none
  | 1 => some .zstd
  | 2 => some .lz4
  | _ => Option.none

/-- Wire tag of a `Bool`. -/
def boolTag : Bool → Nat
  | false => 0
  | true => 1

/-- Decode a `Bool` tag. -/
def boolOfTag : Nat → Option Bool
  | 0 => some false
  | 1 => some true
  | _ => Option.none

/-- Sign-interleaved encoding of an `Int` into a `Nat`. -/
def intTag (i : Int) : Nat :=
  if i < 0 then 2 * i.natAbs + 1 else 2 * i.toNat

/-- Decode a sign-interleaved `Int`. -/
def intOfTag (n : Nat) : Int :=
  if n % 2 = 1 then -((n / 2 : Nat) : Int) else ((n / 2 : Nat) : Int)

/-- Concrete header encoding: length-prefixed `magic` and `checksum`, every
numeric/tag field one list element.  Its length depends only on the lengths
of `magic` and `checksum`, so re-encoding after patching `data_offset` keeps
the length — the property the two-pass trick in `write_to_bytes` relies on
(bincode guarantees it with fixed-width `u64`). -/
def toyHeaderSer (h : SnapshotHeader) : Bytes :=
  lenSer h.magic ++
    h.version :: fmtTag h.format :: compTag h.compression :: boolTag h.encrypted ::
      lenSer h.checksum ++
    [intTag h.timestamp, h.entity_count, h.component_count, h.archetype_count,
      h.data_offset, h.data_size, h.metadata_offset, h.metadata_size]

/-- Decoder for `toyHeaderSer`; ignores any trailing bytes, as
`bincode::deserialize` does. -/
def toyHeaderDeser (b : Bytes) : Except String SnapshotHeader :=
  match splitLen b with
  | Option.none => .error "bad magic"
  | some (magic, rest) =>
      match rest with
      | version :: f :: c :: e :: rest2 =>
          match splitLen rest2 with
          | some (checksum, ts :: ec :: cc :: ac :: doff :: dsz :: moff :: msz :: _) =>
              match fmtOfTag f, compOfTag c, boolOfTag e with
              | some fmt, some comp, some enc =>
                  .ok ⟨magic, version, fmt, comp, enc, checksum, intOfTag ts,
                    ec, cc, ac, doff, dsz, moff, msz⟩
              | _, _, _ => .error "bad tag"
          | _ => .error "truncated"
      | _ => .error "truncated"

/-- Concrete `ExternalCodecs` instance.  Body (de)serialization is constant
(`dflt`), which satisfies the body round-trip contract at `dflt` itself —
the only value any theorem instantiated with this instance is applied to.
Compression is the identity, with the zstd decompressor honouring its output
capacity argument. -/
def toyCodecs (dflt : PackedSnapshot) : ExternalCodecs where
  bincodeSer := fun _ => [0]
  bincodeDeser := fun _ => .ok dflt
  msgpackSer := fun _ => [1]
  msgpackDeser := fun _ => .ok dflt
  headerSer := toyHeaderSer
  headerDeser := toyHeaderDeser
  zstdCompress := fun _ x => x
  zstdDecompress := fun d cap =>
    if d.length ≤ cap then .ok d else .error "output exceeds capacity"
  lz4Compress := fun x => x
  lz4Decompress := fun x => .ok x
  aesEncrypt := fun _ _ d => d
  aesDecrypt := fun _ _ d => .ok d
  sha256 := fun x => [x.length]

/-- A well-formed sample snapshot (`PackedSnapshot::new()` at timestamp 0). -/
def sampleSnapshot : PackedSnapshot := PackedSnapshot.new 0

/-- A sample snapshot whose header magic has been zeroed. -/
def badMagicSnapshot : PackedSnapshot :=
  { sampleSnapshot with header := { sampleSnapshot.header with magic := List.replicate 8 0 } }

/-- A sample checkpoint. -/
def sampleCheckpoint : Checkpoint := Checkpoint.new "cp0" sampleSnapshot 0

/-- The ≈100 MiB + 1 byte input exceeding the zstd decompression output cap. -/
def oversizedInput : Bytes := List.replicate (100 * 1024 * 1024 + 1) 0

/-! Derived views of the write pipeline, used to state hypotheses and
conclusions about `write_to_bytes` (proved to coincide with it below). -/

/-- The serialized body `write_to_bytes` produces for a snapshot whose format
is not `Custom` (for `Custom` the writer fails before this point). -/
def bodyOf (L : ExternalCodecs) (S : PackedSnapshot) : Bytes :=
  match S.header.format with
  | .bincode => L.bincodeSer S
  | .messagePack => L.msgpackSer S
  | .custom => []

/-- The compressed body `write_to_bytes` produces. -/
def compressedOf (L : ExternalCodecs) (w : SnapshotWriter) (S : PackedSnapshot) : Bytes :=
  match w.compression with
  | .none => bodyOf L S
  | .zstd level => L.zstdCompress level (bodyOf L S)
  | .lz4 => L.lz4Compress (bodyOf L S)

/-- The final header before the `data_offset` patch, as a function of the
final payload `fd`: the snapshot's header with `compression`, `encrypted`,
`checksum` and `data_size` overwritten. -/
def finalHeaderPass1 (L : ExternalCodecs) (w : SnapshotWriter) (S : PackedSnapshot)
    (fd : Bytes) : SnapshotHeader :=
  { S.header with
    compression := codecToType w.compression,
    encrypted := w.encryption_key.isSome,
    checksum := compute_checksum L fd,
    data_size := fd.length }

/-- The final emitted header: `finalHeaderPass1` with `data_offset` patched
to the measured encoded length of `finalHeaderPass1`. -/
def finalHeaderOf (L : ExternalCodecs) (w : SnapshotWriter) (S : PackedSnapshot)
    (fd : Bytes) : SnapshotHeader :=
  { finalHeaderPass1 L w S fd with
    data_offset := (L.headerSer (finalHeaderPass1 L w S fd)).length }

/-- The nearest-index rule exactly as the frozen claim states it, written
from the claim's words for comparison against the code: with `L` the
insertion point of the target in the ascending `times`, return 0 if `L = 0`;
`len-1` if `L = len`; otherwise `L-1` when
`|times[L-1] - target| ≤ |times[L] - target|` (ties toward the EARLIER
sample) and `L` otherwise. -/
def claimedNearest (qs : List ℚ) (t : ℚ) : Option Nat :=
  if qs.length = 0 then Option.none
  else
    let L := (qs.takeWhile (fun q => decide (q < t))).length
    if L = 0 then some 0
    else if L = qs.length then some (qs.length - 1)
    else if |qs.getD (L - 1) 0 - t| ≤ |qs.getD L 0 - t| then some (L - 1)
    else some L

/-- A concrete container: `sampleSnapshot` written with the default writer
(zstd level 3, no key) under the concrete codec instance. -/
def sampleContainer : Bytes :=
  match write_to_bytes (toyCodecs sampleSnapshot) SnapshotWriter.new sampleSnapshot [] with
  | .ok b => b
  | .error _ => []

/-! # Theorems -/

/-- C7: at the far boundary of a non-empty `ReplayEngine`, `next()` (when the
index is at the last element) wraps to index 0 and returns the first
checkpoint iff `loop_replay` is enabled, else returns `None` leaving the
index unchanged; symmetrically `previous()` at index 0 wraps to the last
checkpoint iff `loop_replay` is enabled, else returns `None` leaving the
index unchanged. -/
theorem replay_wraparound (e : ReplayEngine) (hne : e.checkpoints ≠ []) :
    (e.current_index = e.checkpoints.length - 1 →
      (e.loop_replay = true →
        e.next = (e.checkpoints.head?, { e with current_index := 0 })) ∧
      (e.loop_replay = false → e.next = (Option.none, e))) ∧
    (e.current_index = 0 →
      (e.loop_replay = true →
        e.previous =
          (e.checkpoints.getLast?, { e with current_index := e.checkpoints.length - 1 })) ∧
      (e.loop_replay = false → e.previous = (Option.none, e))) := by
  have hpos : 0 < e.checkpoints.length := List.length_pos.mpr hne
  have hempty : e.checkpoints.isEmpty = false := by simp [hne]
  refine ⟨fun hidx => ⟨fun hloop => ?_, fun hloop => ?_⟩,
          fun hidx => ⟨fun hloop => ?_, fun hloop => ?_⟩⟩
  · rw [ReplayEngine.next, if_neg (by omega), if_pos (by simp [hloop, hempty])]
    simp [ReplayEngine.current, List.head?_eq_getElem?]
  · rw [ReplayEngine.next, if_neg (by omega), if_neg (by simp [hloop])]
  · rw [ReplayEngine.previous, if_neg (by omega), if_pos (by simp [hloop, hempty])]
    simp [ReplayEngine.current, List.getLast?_eq_getElem?]
  · rw [ReplayEngine.previous, if_neg (by omega), if_neg (by simp [hloop])]

/-- Witness for C7: a one-element looping engine at index 0 (which is both the
last element and index 0) wraps in both directions. -/
theorem replay_wraparound_witness :
    ReplayEngine.next ⟨[sampleCheckpoint], 0, true⟩ =
      (some sampleCheckpoint, ⟨[sampleCheckpoint], 0, true⟩) ∧
    ReplayEngine.previous ⟨[sampleCheckpoint], 0, true⟩ =
      (some sampleCheckpoint, ⟨[sampleCheckpoint], 0, true⟩) := by
  have h := replay_wraparound ⟨[sampleCheckpoint], 0, true⟩ (by simp)
  exact ⟨by simpa using (h.1 (by simp)).1 rfl, by simpa using (h.2 rfl).1 rfl⟩

/-- C10: `seek(i)` with `i ≥ len()` returns an `InvalidCheckpoint` error and
leaves the engine unchanged, so `get_index()` and `current()` are unchanged. -/
theorem seek_out_of_bounds (e : ReplayEngine) (i : Nat) (h : i ≥ e.len) :
    e.seek i =
      (.error (.invalidCheckpoint ("Index " ++ toString i ++ " out of bounds")), e) ∧
    (e.seek i).2.get_index = e.get_index ∧ (e.seek i).2.current = e.current := by
  have hseek : e.seek i =
      (.error (.invalidCheckpoint ("Index " ++ toString i ++ " out of bounds")), e) := by
    rw [ReplayEngine.seek, if_pos (show i ≥ e.checkpoints.length from h)]
  exact ⟨hseek, by rw [hseek], by rw [hseek]⟩

/-- Witness for C10: seeking index 3 in a one-element engine fails and leaves
the engine untouched. -/
theorem seek_out_of_bounds_witness :
    ReplayEngine.seek ⟨[sampleCheckpoint], 0, false⟩ 3 =
      (.error (.invalidCheckpoint "Index 3 out of bounds"), ⟨[sampleCheckpoint], 0, false⟩) ∧
    (ReplayEngine.seek ⟨[sampleCheckpoint], 0, false⟩ 3).2.get_index =
      (⟨[sampleCheckpoint], 0, false⟩ : ReplayEngine).get_index ∧
    (ReplayEngine.seek ⟨[sampleCheckpoint], 0, false⟩ 3).2.current =
      (⟨[sampleCheckpoint], 0, false⟩ : ReplayEngine).current := by
  have h := seek_out_of_bounds ⟨[sampleCheckpoint], 0, false⟩ 3 (by simp [ReplayEngine.len])
  simpa using h

/-- C3: `TimeTravel::record` does NOT reject a NaN time.  On an empty store
the NaN sample is inserted and becomes `current_time` (no comparison is ever
performed, so not even the sort panics); on a store that already holds a
sample, the `sort_by(..).unwrap()` comparator panics (modelled by `none`).
In neither case is `InvalidCheckpoint("non-finite time")` surfaced — indeed
`record` returns `()` in the source and has no error channel at all. -/
theorem record_nan_not_rejected :
    TimeTravel.record ⟨[], F64.finite 0⟩ F64.nan sampleSnapshot =
      some ⟨[(F64.nan, sampleSnapshot)], F64.nan⟩ ∧
    TimeTravel.record ⟨[(F64.finite 0, sampleSnapshot)], F64.finite 0⟩ F64.nan
      sampleSnapshot = Option.none := by
  constructor <;> rfl

/-- C6: `create_checkpoint` is atomic from the caller's perspective: if the
`store.save` persistence step fails, the returned error is that failure and
the manager state (chain and cache) is exactly the pre-call state; if it
succeeds, `id` is appended at the chain's tail and the cache maps `id` to a
checkpoint whose `parent_id` is the previous tail (`none` for an empty
chain). -/
theorem create_checkpoint_atomic (m : CheckpointManager) (id : String)
    (snapshot : PackedSnapshot) (now : Int) (saveResult : Except PackError Unit) :
    (∀ e, saveResult = .error e →
      m.create_checkpoint id snapshot now saveResult = (m, .error e)) ∧
    (saveResult = .ok () →
      (m.create_checkpoint id snapshot now saveResult).2 = .ok () ∧
      (m.create_checkpoint id snapshot now saveResult).1.checkpoint_chain
        = m.checkpoint_chain ++ [id] ∧
      getAssoc (m.create_checkpoint id snapshot now saveResult).1.checkpoints id
        = some { Checkpoint.new id snapshot now with
                  parent_id := m.checkpoint_chain.getLast? }) := by
  constructor
  · intro e he
    subst he
    rfl
  · intro hok
    subst hok
    refine ⟨rfl, rfl, ?_⟩
    cases hlast : m.checkpoint_chain.getLast? with
    | none =>
        simp [CheckpointManager.create_checkpoint, hlast, getAssoc, insertAssoc,
          Checkpoint.new]
    | some parent =>
        simp [CheckpointManager.create_checkpoint, hlast, getAssoc, insertAssoc,
          Checkpoint.new, Checkpoint.with_parent]

/-- Witness for C6: a failing save leaves a fresh manager untouched, and a
successful save appends the id to the chain. -/
theorem create_checkpoint_atomic_witness :
    CheckpointManager.create_checkpoint ⟨[], []⟩ "cp0" sampleSnapshot 0
      (.error (.ioErr "disk full")) = (⟨[], []⟩, .error (.ioErr "disk full")) ∧
    (CheckpointManager.create_checkpoint ⟨[], []⟩ "cp0" sampleSnapshot 0
      (.ok ())).1.checkpoint_chain = ["cp0"] := by
  have h1 := create_checkpoint_atomic ⟨[], []⟩ "cp0" sampleSnapshot 0
    (.error (.ioErr "disk full"))
  have h2 := create_checkpoint_atomic ⟨[], []⟩ "cp0" sampleSnapshot 0 (.ok ())
  exact ⟨h1.1 _ rfl, by simpa using (h2.2 rfl).2.1⟩

/-- C5 counterexample: the claim "after `clear_all_checkpoints` returns `Ok`
the in-memory cache contains no entries" fails.  Loading an id that is not
part of the chain (here `"ghost"`, supplied by the store) populates the
cache; `clear_all_checkpoints` only deletes ids in the chain (here: none),
returns `Ok`, and the cache still holds the `"ghost"` entry. -/
theorem clear_all_checkpoints_counterexample :
    (CheckpointManager.load_checkpoint ⟨[], []⟩ "ghost"
        (.ok (sampleSnapshot, SnapshotMetadata.new "ghost" 0))).1.checkpoint_chain = [] ∧
    (CheckpointManager.clear_all_checkpoints (fun _ => .ok ())
        (CheckpointManager.load_checkpoint ⟨[], []⟩ "ghost"
          (.ok (sampleSnapshot, SnapshotMetadata.new "ghost" 0))).1).2 = .ok () ∧
    (CheckpointManager.clear_all_checkpoints (fun _ => .ok ())
        (CheckpointManager.load_checkpoint ⟨[], []⟩ "ghost"
          (.ok (sampleSnapshot, SnapshotMetadata.new "ghost" 0))).1).1.checkpoints
      ≠ [] := by
  refine ⟨rfl, rfl, ?_⟩
  simp [CheckpointManager.clear_all_checkpoints, CheckpointManager.load_checkpoint,
    clearAllLoop, getAssoc, insertAssoc]

/-- The `clear_all_checkpoints` loop, on success, removes from the chain and
the cache exactly the ids of the list it iterates over. -/
theorem clearAllLoop_ok_state (storeDelete : String → Except PackError Unit)
    (ids : List String) :
    ∀ m : CheckpointManager, (clearAllLoop storeDelete m ids).2 = .ok () →
      (clearAllLoop storeDelete m ids).1.checkpoint_chain
          = m.checkpoint_chain.filter (fun cid => decide (cid ∉ ids)) ∧
      (clearAllLoop storeDelete m ids).1.checkpoints
          = m.checkpoints.filter (fun p => decide (p.1 ∉ ids)) := by
  induction ids with
  | nil => intro m _; simp [clearAllLoop]
  | cons id rest ih =>
      intro m h
      rw [clearAllLoop, CheckpointManager.delete_checkpoint] at h ⊢
      cases hdel : storeDelete id with
      | error e => rw [hdel] at h; simp at h
      | ok _ =>
          rw [hdel] at h
          dsimp only at h ⊢
          obtain ⟨h1, h2⟩ := ih _ h
          rw [h1, h2]
          constructor
          · rw [List.filter_filter]
            refine List.filter_congr ?_
            intro a _
            by_cases h1 : a = id <;> by_cases h2 : a ∈ rest <;>
              simp [removeAssoc, h1, h2]
          · rw [removeAssoc, List.filter_filter]
            refine List.filter_congr ?_
            intro p _
            by_cases h1 : p.1 = id <;> by_cases h2 : p.1 ∈ rest <;>
              simp [h1, h2]

/-- C5 (amended): if `clear_all_checkpoints()` returns `Ok`, the chain is
empty and every cache entry whose id was in the chain has been removed; cache
entries with ids never in the chain (inserted by `load_checkpoint` for
out-of-chain ids) survive. -/
theorem clear_all_checkpoints_ok (storeDelete : String → Except PackError Unit)
    (m : CheckpointManager)
    (h : (m.clear_all_checkpoints storeDelete).2 = .ok ()) :
    (m.clear_all_checkpoints storeDelete).1.checkpoint_chain = [] ∧
    (m.clear_all_checkpoints storeDelete).1.checkpoints
      = m.checkpoints.filter (fun p => decide (p.1 ∉ m.checkpoint_chain)) := by
  have h2 := clearAllLoop_ok_state storeDelete m.checkpoint_chain m h
  rw [CheckpointManager.clear_all_checkpoints]
  refine ⟨?_, h2.2⟩
  rw [h2.1]
  simp +contextual [List.filter_eq_nil_iff]

/-- Witness for C5 (amended): a manager whose chain is `["cp0"]` and whose
cache also holds an out-of-chain `"ghost"` entry; clearing succeeds, empties
the chain, and leaves exactly the filtered cache. -/
theorem clear_all_checkpoints_ok_witness :
    ((⟨[("cp0", sampleCheckpoint), ("ghost", sampleCheckpoint)], ["cp0"]⟩ :
        CheckpointManager).clear_all_checkpoints (fun _ => .ok ())).1.checkpoint_chain
      = [] ∧
    ((⟨[("cp0", sampleCheckpoint), ("ghost", sampleCheckpoint)], ["cp0"]⟩ :
        CheckpointManager).clear_all_checkpoints (fun _ => .ok ())).1.checkpoints
      = ([("cp0", sampleCheckpoint), ("ghost", sampleCheckpoint)] :
          List (String × Checkpoint)).filter
          (fun p => decide (p.1 ∉ (["cp0"] : List String))) :=
  clear_all_checkpoints_ok (fun _ => .ok ()) _ (by rfl)

/-- C8 (amended): for every byte sequence `x` (including the empty one) and
codec, `compress` succeeds, and `decompress` with the codec's family tag
returns exactly `x`, provided the zstd/lz4 libraries round-trip `x` — which
for zstd requires the decompressed size to fit the 100 MiB output cap the
code passes (see the counterexample for an `x` above the cap). -/
theorem compress_decompress_roundtrip (L : ExternalCodecs) (x : Bytes)
    (codec : CompressionCodec)
    (hzstd : ∀ level, codec = .zstd level →
      L.zstdDecompress (L.zstdCompress level x) (100 * 1024 * 1024) = .ok x)
    (hlz4 : codec = .lz4 → L.lz4Decompress (L.lz4Compress x) = .ok x) :
    ∃ y, compress L x codec = .ok y ∧ decompress L y (codecToType codec) = .ok x := by
  cases codec with
  | none => exact ⟨x, rfl, rfl⟩
  | zstd level =>
      exact ⟨L.zstdCompress level x, rfl, by simp [decompress, hzstd level rfl, codecToType]⟩
  | lz4 =>
      exact ⟨L.lz4Compress x, rfl, by simp [decompress, hlz4 rfl, codecToType]⟩

/-- Witness for C8 (amended): the concrete codec instance round-trips
`[1, 2, 3]` through the zstd path. -/
theorem compress_decompress_roundtrip_witness :
    ∃ y, compress (toyCodecs sampleSnapshot) [1, 2, 3] (.zstd 3) = .ok y ∧
      decompress (toyCodecs sampleSnapshot) y (codecToType (.zstd 3)) = .ok [1, 2, 3] :=
  compress_decompress_roundtrip (toyCodecs sampleSnapshot) [1, 2, 3] (.zstd 3)
    (fun _ h => by cases h; rfl) (fun h => by cases h)

/-- When the zstd library reports an error, `decompress` surfaces it as
`Decompression`. -/
theorem decompress_zstd_err (L : ExternalCodecs) (d : Bytes) (e : String)
    (h : L.zstdDecompress d (100 * 1024 * 1024) = .error e) :
    decompress L d .zstd = .error (.decompressionErr e) := by
  simp [decompress, h]

/-- C8 counterexample: the round trip is NOT exact for *all* inputs — the
zstd decompression path caps its output at `100 * 1024 * 1024` bytes, so an
input one byte longer than the cap compresses fine but fails to decompress
(with libraries honouring the capacity argument, as zstd's bulk API does). -/
theorem compress_decompress_counterexample :
    compress (toyCodecs sampleSnapshot) oversizedInput (.zstd 3) = .ok oversizedInput ∧
    decompress (toyCodecs sampleSnapshot) oversizedInput .zstd
      = .error (.decompressionErr "output exceeds capacity") := by
  refine ⟨rfl, ?_⟩
  have hlen : ¬ oversizedInput.length ≤ 100 * 1024 * 1024 := by
    show ¬ (List.replicate (100 * 1024 * 1024 + 1) (0 : Nat)).length ≤ 100 * 1024 * 1024
    rw [List.length_replicate]
    omega
  have hz : ∀ (d : Bytes) (cap : Nat), ¬ d.length ≤ cap →
      (toyCodecs sampleSnapshot).zstdDecompress d cap = .error "output exceeds capacity" :=
    fun _ _ h => if_neg h
  exact decompress_zstd_err (toyCodecs sampleSnapshot) oversizedInput _
    (hz oversizedInput (100 * 1024 * 1024) hlen)

/-- C9: with no encryption key configured, `write_to_bytes` is a
deterministic function of the snapshot: its result does not depend on the
RNG (the pipeline's only nondeterministic input, used solely for the AES-GCM
nonce), because the header timestamp is copied from the snapshot and
serialization, compression and checksumming are pure.  Hence two calls on
the same writer return byte-for-byte identical outputs. -/
theorem write_to_bytes_deterministic (L : ExternalCodecs) (w : SnapshotWriter)
    (S : PackedSnapshot) (rng₁ rng₂ : Bytes)
    (hkey : w.encryption_key = Option.none) :
    write_to_bytes L w S rng₁ = write_to_bytes L w S rng₂ := by
  simp only [write_to_bytes, hkey]

/-- Witness for C9: a keyless writer produces the same bytes under two
different RNG streams. -/
theorem write_to_bytes_deterministic_witness :
    write_to_bytes (toyCodecs sampleSnapshot) SnapshotWriter.new sampleSnapshot [1, 2, 3]
      = write_to_bytes (toyCodecs sampleSnapshot) SnapshotWriter.new sampleSnapshot
          [4, 5, 6] :=
  write_to_bytes_deterministic (toyCodecs sampleSnapshot) SnapshotWriter.new
    sampleSnapshot [1, 2, 3] [4, 5, 6] rfl

/-- `splitLen` undoes `lenSer`, returning any trailing bytes untouched. -/
theorem splitLen_lenSer (xs rest : Bytes) :
    splitLen (lenSer xs ++ rest) = some (xs, rest) := by
  show splitLen (xs.length :: (xs ++ rest)) = some (xs, rest)
  simp only [splitLen]
  rw [if_pos (by simp), List.take_left, List.drop_left]

/-- The sign-interleaved integer encoding round-trips. -/
theorem intOfTag_intTag (i : Int) : intOfTag (intTag i) = i := by
  simp only [intTag, intOfTag]
  by_cases h : i < 0
  · rw [if_pos h]
    have h1 : (2 * i.natAbs + 1) % 2 = 1 := by omega
    have h2 : ((2 * i.natAbs + 1) / 2 : Nat) = i.natAbs := by omega
    rw [if_pos h1, h2]
    omega
  · rw [if_neg h]
    have h1 : ¬ (2 * i.toNat) % 2 = 1 := by omega
    have h2 : ((2 * i.toNat) / 2 : Nat) = i.toNat := by omega
    rw [if_neg h1, h2]
    omega

/-- The concrete header encoder satisfies the contract the two-pass
`data_offset` patch in `write_to_bytes` relies on: re-encoding after
changing `data_offset` never changes the encoded length (bincode guarantees
this with fixed-width `u64`). -/
theorem toyHeaderSer_length_stable (h : SnapshotHeader) (n : Nat) :
    (toyHeaderSer { h with data_offset := n }).length = (toyHeaderSer h).length := by
  simp [toyHeaderSer, lenSer]

/-- The concrete header codec satisfies the prefix round-trip contract of
`bincode::deserialize`: decoding `encode(h) ++ rest` yields `h`, ignoring
the trailing bytes. -/
theorem toyHeader_roundtrip (h : SnapshotHeader) (rest : Bytes) :
    toyHeaderDeser (toyHeaderSer h ++ rest) = .ok h := by
  obtain ⟨magic, version, format, compression, encrypted, checksum, ts, ec, cc, ac,
    doff, dsz, moff, msz⟩ := h
  simp only [toyHeaderSer, List.cons_append, List.append_assoc]
  simp only [toyHeaderDeser, splitLen_lenSer, List.cons_append]
  cases format <;> cases compression <;> cases encrypted <;>
    simp [fmtTag, fmtOfTag, compTag, compOfTag, boolTag, boolOfTag, intOfTag_intTag]

/-- `Except` bind on a success (the `?` operator stepping past an `Ok`). -/
theorem exceptBind_ok {α β : Type} (a : α) (f : α → Except PackError β) :
    (Except.ok a >>= f) = f a := rfl

/-- `Except` bind on an error (the `?` operator propagating an `Err`). -/
theorem exceptBind_err {α β : Type} (e : PackError) (f : α → Except PackError β) :
    ((Except.error e : Except PackError α) >>= f) = Except.error e := rfl

/-- `Except` bind on a `pure`. -/
theorem exceptPure_bind {α β : Type} (a : α) (f : α → Except PackError β) :
    ((pure a : Except PackError α) >>= f) = f a := rfl

/-- `compress` never fails: it returns the configured library's output. -/
theorem compress_ok (L : ExternalCodecs) (data : Bytes) (codec : CompressionCodec) :
    ∃ c, compress L data codec = .ok c := by
  cases codec <;> exact ⟨_, rfl⟩

/-- Shape of every successful `write_to_bytes` output: the encoded final
header (with its measured-then-patched `data_offset`) followed by the final
payload. -/
theorem write_to_bytes_ok_shape (L : ExternalCodecs) (w : SnapshotWriter)
    (S : PackedSnapshot) (rng B : Bytes)
    (hw : write_to_bytes L w S rng = .ok B) :
    ∃ fd, B = L.headerSer (finalHeaderOf L w S fd) ++ fd := by
  rw [write_to_bytes] at hw
  cases hser : serialize_snapshot L S with
  | error e => rw [hser, exceptBind_err] at hw; exact absurd hw (by simp)
  | ok s =>
      rw [hser, exceptBind_ok] at hw
      obtain ⟨c, hc⟩ := compress_ok L s w.compression
      rw [hc, exceptBind_ok] at hw
      cases hk : w.encryption_key with
      | none =>
          rw [hk] at hw
          dsimp only at hw
          rw [exceptPure_bind] at hw
          refine ⟨c, ?_⟩
          simp only [finalHeaderOf, finalHeaderPass1, hk]
          exact (Except.ok.inj hw).symm
      | some key =>
          rw [hk] at hw
          dsimp only at hw
          rw [encrypt_snapshot, exceptBind_ok] at hw
          refine ⟨rng.take 12 ++ L.aesEncrypt key.key (rng.take 12) c, ?_⟩
          simp only [finalHeaderOf, finalHeaderPass1, hk]
          exact (Except.ok.inj hw).symm

/-- C2: for every byte sequence `B` produced by `write_to_bytes`, the header
parsed from the start of `B` has `data_offset` equal to the length of the
serialized final header, `data_size` equal to `|B| - data_offset` (and the
payload ends exactly at `|B|`), and `checksum` equal to SHA-256 of the byte
slice `B[data_offset .. data_offset + data_size]` exactly as it appears in
`B`.  The two hypotheses are the bincode header-encoding contracts the
two-pass writer relies on: prefix round trip, and encoded length invariant
under a `data_offset` rewrite (fixed-width `u64`). -/
theorem header_invariants (L : ExternalCodecs) (w : SnapshotWriter)
    (S : PackedSnapshot) (rng B : Bytes)
    (hhdr : ∀ h r, L.headerDeser (L.headerSer h ++ r) = .ok h)
    (hlen : ∀ h n, (L.headerSer { h with data_offset := n }).length = (L.headerSer h).length)
    (hw : write_to_bytes L w S rng = .ok B) :
    ∃ h, L.headerDeser B = .ok h ∧
      h.data_offset = (L.headerSer h).length ∧
      h.data_size = B.length - h.data_offset ∧
      h.data_offset + h.data_size = B.length ∧
      h.checksum = L.sha256 ((B.drop h.data_offset).take h.data_size) := by
  obtain ⟨fd, rfl⟩ := write_to_bytes_ok_shape L w S rng B hw
  have hoff : (finalHeaderOf L w S fd).data_offset
      = (L.headerSer (finalHeaderPass1 L w S fd)).length := rfl
  have hsz : (finalHeaderOf L w S fd).data_size = fd.length := rfl
  have hck : (finalHeaderOf L w S fd).checksum = L.sha256 fd := rfl
  have hL : (L.headerSer (finalHeaderOf L w S fd)).length
      = (L.headerSer (finalHeaderPass1 L w S fd)).length := by
    rw [show finalHeaderOf L w S fd
        = { finalHeaderPass1 L w S fd
            with data_offset := (L.headerSer (finalHeaderPass1 L w S fd)).length }
      from rfl]
    exact hlen _ _
  have hoff2 : (finalHeaderOf L w S fd).data_offset
      = (L.headerSer (finalHeaderOf L w S fd)).length := by rw [hoff, hL]
  refine ⟨finalHeaderOf L w S fd, hhdr _ _, hoff2, ?_, ?_, ?_⟩
  · rw [hsz, hoff2, List.length_append]
    omega
  · rw [hsz, hoff2, List.length_append]
  · rw [hck, hoff2, hsz, List.drop_left, List.take_length]

/-- Witness for C2: the header invariants hold of the concrete container
written from `sampleSnapshot` with the concrete codec instance. -/
theorem header_invariants_witness :
    ∃ h, (toyCodecs sampleSnapshot).headerDeser sampleContainer = .ok h ∧
      h.data_offset = ((toyCodecs sampleSnapshot).headerSer h).length ∧
      h.data_size = sampleContainer.length - h.data_offset ∧
      h.data_offset + h.data_size = sampleContainer.length ∧
      h.checksum = (toyCodecs sampleSnapshot).sha256
        ((sampleContainer.drop h.data_offset).take h.data_size) :=
  header_invariants (toyCodecs sampleSnapshot) SnapshotWriter.new sampleSnapshot []
    sampleContainer (fun h r => toyHeader_roundtrip h r)
    (fun h n => toyHeaderSer_length_stable h n) (by rfl)

/-- Under a non-`Custom` format, `serialize_snapshot` yields the body bytes. -/
theorem serialize_snapshot_eq_bodyOf (L : ExternalCodecs) (S : PackedSnapshot)
    (hfmt : S.header.format ≠ .custom) :
    serialize_snapshot L S = .ok (bodyOf L S) := by
  cases hf : S.header.format with
  | bincode => simp [serialize_snapshot, bodyOf, hf]
  | messagePack => simp [serialize_snapshot, bodyOf, hf]
  | custom => exact absurd hf hfmt

/-- `compress` applied to the serialized body yields `compressedOf`. -/
theorem compress_eq_compressedOf (L : ExternalCodecs) (w : SnapshotWriter)
    (S : PackedSnapshot) :
    compress L (bodyOf L S) w.compression = .ok (compressedOf L w S) := by
  cases hc : w.compression <;> simp [compress, compressedOf, hc]

/-- A keyless `write_to_bytes` evaluates to the framed container holding the
compressed body. -/
theorem write_to_bytes_keyless (L : ExternalCodecs) (w : SnapshotWriter)
    (S : PackedSnapshot) (rng : Bytes)
    (hkey : w.encryption_key = Option.none) (hfmt : S.header.format ≠ .custom) :
    write_to_bytes L w S rng =
      .ok (L.headerSer (finalHeaderOf L w S (compressedOf L w S))
            ++ compressedOf L w S) := by
  rw [write_to_bytes, serialize_snapshot_eq_bodyOf L S hfmt, exceptBind_ok,
    compress_eq_compressedOf, exceptBind_ok, hkey]
  dsimp only
  rw [exceptPure_bind]
  simp only [finalHeaderOf, finalHeaderPass1, hkey]
  rfl

/-- The emitted header's `data_offset` (measured on the first encoding pass)
also equals the length of the re-encoded final header, given the encoded
length is invariant under the `data_offset` patch. -/
theorem finalHeaderOf_offset (L : ExternalCodecs) (w : SnapshotWriter)
    (S : PackedSnapshot) (fd : Bytes)
    (hlen : ∀ h n, (L.headerSer { h with data_offset := n }).length = (L.headerSer h).length) :
    (finalHeaderOf L w S fd).data_offset = (L.headerSer (finalHeaderOf L w S fd)).length := by
  have h1 : (L.headerSer (finalHeaderOf L w S fd)).length
      = (L.headerSer (finalHeaderPass1 L w S fd)).length := by
    rw [show finalHeaderOf L w S fd
        = { finalHeaderPass1 L w S fd
            with data_offset := (L.headerSer (finalHeaderPass1 L w S fd)).length }
      from rfl]
    exact hlen _ _
  rw [h1]
  rfl

/-- C1 (amended): for every snapshot whose header carries the genuine magic
and current format version and whose format is `Bincode` or `MessagePack`
(i.e. not `Custom`), writing with any compression codec and no encryption
key and reading back succeeds and returns a snapshot structurally equal to
the original — header, archetypes and entity metadata included (the payload
serializes the whole snapshot, original header included).  The `hhdr`/`hlen`
hypotheses are the bincode header-codec contracts, and `hcomp`/`hbody` the
compression and body-serialization round-trip contracts at exactly the bytes
this snapshot produces. -/
theorem write_read_roundtrip (L : ExternalCodecs) (w : SnapshotWriter)
    (S : PackedSnapshot) (rng : Bytes) (r : SnapshotReader)
    (hkey : w.encryption_key = Option.none)
    (hfmt : S.header.format ≠ .custom)
    (hmagic : S.header.magic = MAGIC_NUMBER)
    (hver : S.header.version = FORMAT_VERSION)
    (hhdr : ∀ h rest, L.headerDeser (L.headerSer h ++ rest) = .ok h)
    (hlen : ∀ h n, (L.headerSer { h with data_offset := n }).length = (L.headerSer h).length)
    (hcomp : decompress L (compressedOf L w S) (codecToType w.compression)
      = .ok (bodyOf L S))
    (hbody : deserialize_snapshot L (bodyOf L S) S.header.format = .ok S) :
    ∃ B, write_to_bytes L w S rng = .ok B ∧ read_from_bytes L r B = .ok S := by
  refine ⟨_, write_to_bytes_keyless L w S rng hkey hfmt, ?_⟩
  have hoff2 := finalHeaderOf_offset L w S (compressedOf L w S) hlen
  have hsz : (finalHeaderOf L w S (compressedOf L w S)).data_size
      = (compressedOf L w S).length := rfl
  have hck : (finalHeaderOf L w S (compressedOf L w S)).checksum
      = L.sha256 (compressedOf L w S) := rfl
  have hm : (finalHeaderOf L w S (compressedOf L w S)).magic = MAGIC_NUMBER := hmagic
  have hv : (finalHeaderOf L w S (compressedOf L w S)).version = FORMAT_VERSION := hver
  rw [read_from_bytes, hhdr]
  dsimp only
  rw [exceptPure_bind]
  have hval : (finalHeaderOf L w S (compressedOf L w S)).validate = .ok () := by
    rw [SnapshotHeader.validate, if_neg (by simp [hm]), if_neg (by simp [hv])]
  rw [hval, exceptBind_ok]
  have hbound : ¬ ((finalHeaderOf L w S (compressedOf L w S)).data_offset
      + (finalHeaderOf L w S (compressedOf L w S)).data_size
      > (L.headerSer (finalHeaderOf L w S (compressedOf L w S))
          ++ compressedOf L w S).length) := by
    rw [hoff2, hsz, List.length_append]
    omega
  rw [if_neg hbound]
  have hslice : ((L.headerSer (finalHeaderOf L w S (compressedOf L w S))
      ++ compressedOf L w S).drop
        (finalHeaderOf L w S (compressedOf L w S)).data_offset).take
        (finalHeaderOf L w S (compressedOf L w S)).data_size
      = compressedOf L w S := by
    rw [hoff2, hsz, List.drop_left, List.take_length]
  rw [hslice]
  have hchk : verify_checksum L (compressedOf L w S)
      (finalHeaderOf L w S (compressedOf L w S)).checksum = .ok () := by
    rw [verify_checksum, if_neg (by simp [hck])]
  rw [hchk, exceptBind_ok]
  have hencn : ¬ ((finalHeaderOf L w S (compressedOf L w S)).encrypted = true) := by
    rw [show (finalHeaderOf L w S (compressedOf L w S)).encrypted
        = w.encryption_key.isSome from rfl, hkey]
    simp
  rw [if_neg hencn]
  rw [show (finalHeaderOf L w S (compressedOf L w S)).compression
      = codecToType w.compression from rfl]
  rw [hcomp, exceptBind_ok]
  rw [show (finalHeaderOf L w S (compressedOf L w S)).format
      = S.header.format from rfl]
  rw [hbody]

/-- C1 counterexample: the claim as stated quantifies over *every*
`PackedSnapshot`, but the round trip fails for a snapshot whose (public)
header magic is zeroed: the writer copies the snapshot's magic into the
container header, and the reader's `validate` rejects it with
`InvalidFormat("Invalid magic number")` instead of returning the snapshot. -/
theorem write_read_roundtrip_counterexample :
    Except.bind
        (write_to_bytes (toyCodecs badMagicSnapshot) SnapshotWriter.new
          badMagicSnapshot [])
        (read_from_bytes (toyCodecs badMagicSnapshot) ⟨Option.none⟩)
      = .error (.invalidFormat "Invalid magic number") := by
  rfl

/-- Witness for C1 (amended): the valid `sampleSnapshot` round-trips under
the concrete codec instance. -/
theorem write_read_roundtrip_witness :
    ∃ B, write_to_bytes (toyCodecs sampleSnapshot) SnapshotWriter.new
        sampleSnapshot [] = .ok B ∧
      read_from_bytes (toyCodecs sampleSnapshot) ⟨Option.none⟩ B
        = .ok sampleSnapshot :=
  write_read_roundtrip (toyCodecs sampleSnapshot) SnapshotWriter.new sampleSnapshot
    [] ⟨Option.none⟩ rfl (by simp [sampleSnapshot, PackedSnapshot.new, SnapshotHeader.new])
    rfl rfl (fun h rest => toyHeader_roundtrip h rest)
    (fun h n => toyHeaderSer_length_stable h n) (by rfl) rfl

/-- `getD` through `map F64.finite`, in range. -/
theorem getD_map_finite (qs : List ℚ) (i : Nat) (h : i < qs.length) :
    (qs.map F64.finite).getD i F64.nan = F64.finite (qs.getD i 0) := by
  rw [List.getD_eq_getElem _ _ (by simpa using h), List.getD_eq_getElem _ _ h,
    List.getElem_map]

/-- `getD` is monotone on an ascending list (within range). -/
theorem sorted_getD_le (qs : List ℚ) (hs : qs.Sorted (· ≤ ·)) (i j : Nat)
    (hij : i ≤ j) (hj : j < qs.length) : qs.getD i 0 ≤ qs.getD j 0 := by
  rcases Nat.eq_or_lt_of_le hij with rfl | hlt
  · exact le_rfl
  · rw [List.getD_eq_getElem _ _ (by omega), List.getD_eq_getElem _ _ hj]
    exact hs.rel_get_of_lt (by simpa using hlt)

/-- Correctness of the fueled binary-search loop on an ascending list of
finite times: with sufficient fuel and invariant-respecting bounds, the
final `left` separates the strictly-smaller times from the `≥ target` ones. -/
theorem lowerBoundAux_spec (qs : List ℚ) (t : ℚ) (hs : qs.Sorted (· ≤ ·)) :
    ∀ fuel l r : Nat, l ≤ r → r ≤ qs.length → r - l ≤ fuel →
      (∀ i, i < l → qs.getD i 0 < t) →
      (∀ i, r ≤ i → i < qs.length → t ≤ qs.getD i 0) →
      (∀ i, i < TimeTravel.lowerBoundAux (qs.map F64.finite) (F64.finite t) fuel l r →
        qs.getD i 0 < t) ∧
      (∀ i, TimeTravel.lowerBoundAux (qs.map F64.finite) (F64.finite t) fuel l r ≤ i →
        i < qs.length → t ≤ qs.getD i 0) ∧
      l ≤ TimeTravel.lowerBoundAux (qs.map F64.finite) (F64.finite t) fuel l r ∧
      TimeTravel.lowerBoundAux (qs.map F64.finite) (F64.finite t) fuel l r ≤ r := by
  intro fuel
  induction fuel with
  | zero =>
      intro l r hlr hrq hfuel hl hr
      rw [TimeTravel.lowerBoundAux]
      exact ⟨hl, fun i hi hiq => hr i (by omega) hiq, le_rfl, hlr⟩
  | succ fuel ih =>
      intro l r hlr hrq hfuel hl hr
      simp only [TimeTravel.lowerBoundAux]
      by_cases hlt : l < r
      · rw [if_pos hlt]
        have hmidl : l ≤ (l + r) / 2 := by omega
        have hmidr : (l + r) / 2 < r := by omega
        have hmidq : (l + r) / 2 < qs.length := by omega
        rw [getD_map_finite qs _ hmidq]
        by_cases hq : qs.getD ((l + r) / 2) 0 < t
        · rw [if_pos (by simp only [F64.blt, decide_eq_true_eq]; exact hq)]
          obtain ⟨g1, g2, g3, g4⟩ := ih ((l + r) / 2 + 1) r (by omega) hrq (by omega)
            (fun i hi => lt_of_le_of_lt
              (sorted_getD_le qs hs i ((l + r) / 2) (by omega) hmidq) hq)
            hr
          exact ⟨g1, g2, by omega, g4⟩
        · rw [if_neg (by simp only [F64.blt, decide_eq_true_eq]; exact hq)]
          obtain ⟨g1, g2, g3, g4⟩ := ih l ((l + r) / 2) (by omega) (by omega) (by omega)
            hl
            (fun i hi hiq => le_trans (not_lt.mp hq)
              (sorted_getD_le qs hs ((l + r) / 2) i hi hiq))
          exact ⟨g1, g2, g3, by omega⟩
      · rw [if_neg hlt]
        exact ⟨hl, fun i hi hiq => hr i (by omega) hiq, le_rfl, hlr⟩

/-- The nearest-neighbour selection of `find_snapshot_at_time` on a
non-empty ascending store of finite times, characterized by the insertion
point `L` of the target: the result is `0` when `L = 0`, `len-1` when
`L = len`, else `L-1` exactly when the left neighbour is strictly closer,
and `L` otherwise (so exact ties select the later sample `L`). -/
theorem find_spec (l : List (ℚ × PackedSnapshot)) (t : ℚ) (ct : F64)
    (hne : l ≠ []) (hs : (l.map Prod.fst).Sorted (· ≤ ·)) :
    ∃ L, L ≤ l.length ∧
      (∀ i, i < L → (l.map Prod.fst).getD i 0 < t) ∧
      (∀ i, L ≤ i → i < l.length → t ≤ (l.map Prod.fst).getD i 0) ∧
      TimeTravel.find_snapshot_at_time
          ⟨l.map (fun p => (F64.finite p.1, p.2)), ct⟩ (F64.finite t)
        = some (if L = 0 then 0
            else if L = l.length then l.length - 1
            else if |(l.map Prod.fst).getD (L - 1) 0 - t|
                < |(l.map Prod.fst).getD L 0 - t| then L - 1
            else L) := by
  have hn : 0 < l.length := List.length_pos.mpr hne
  have hqlen : (l.map Prod.fst).length = l.length := List.length_map _ _
  obtain ⟨h1, h2, -, h4⟩ := lowerBoundAux_spec (l.map Prod.fst) t hs l.length 0 l.length
    (Nat.zero_le _) (le_of_eq hqlen.symm) (by omega)
    (fun i hi => absurd hi (Nat.not_lt_zero i))
    (fun i hi hiq => absurd hiq (by rw [hqlen]; omega))
  refine ⟨TimeTravel.lowerBoundAux ((l.map Prod.fst).map F64.finite) (F64.finite t) l.length 0
      l.length, h4, h1, (fun i hLi hil => h2 i hLi (by rw [hqlen]; exact hil)), ?_⟩
  have hske : (l.map (fun p => (F64.finite p.1, p.2))).isEmpty = false := by
    cases l with
    | nil => exact absurd rfl hne
    | cons a l' => rfl
  have htimes : (l.map (fun p => (F64.finite p.1, p.2))).map Prod.fst
      = (l.map Prod.fst).map F64.finite := by
    simp [List.map_map]
  have hlen2 : (l.map (fun p => (F64.finite p.1, p.2))).length = l.length :=
    List.length_map _ _
  rw [TimeTravel.find_snapshot_at_time]
  rw [if_neg (by simp [hske])]
  dsimp only
  rw [htimes, hlen2]
  set L := TimeTravel.lowerBoundAux ((l.map Prod.fst).map F64.finite) (F64.finite t) l.length 0
    l.length with hL
  rcases Nat.eq_zero_or_pos L with hL0 | hLpos
  · rw [hL0]
    rw [if_neg (by simp), if_pos hn, if_pos rfl]
  · by_cases hLn : L = l.length
    · rw [if_pos ⟨hLpos, Or.inl (by omega)⟩, if_neg (by omega), if_pos hLn, hLn]
    · have hlt : L < l.length := by omega
      have e1 : ((l.map Prod.fst).map F64.finite).getD L F64.nan
          = F64.finite ((l.map Prod.fst).getD L 0) :=
        getD_map_finite _ _ (by omega)
      have e2 : ((l.map Prod.fst).map F64.finite).getD (L - 1) F64.nan
          = F64.finite ((l.map Prod.fst).getD (L - 1) 0) :=
        getD_map_finite _ _ (by omega)
      rw [e1, e2]
      dsimp only [F64.sub, F64.fabs, F64.bgt]
      simp only [decide_eq_true_eq]
      by_cases habs : |t - (l.map Prod.fst).getD (L - 1) 0|
          < |(l.map Prod.fst).getD L 0 - t|
      · rw [if_pos ⟨hLpos, Or.inr habs⟩, if_neg (by omega), if_neg hLn,
          if_pos (by rw [abs_sub_comm] at habs; exact habs)]
      · rw [if_neg ?_, if_pos hlt, if_neg (by omega), if_neg hLn,
          if_neg (by rw [abs_sub_comm] at habs; exact habs)]
        rintro ⟨-, h | h⟩
        · omega
        · exact habs h

/-- C4 counterexample: on the ascending store with times `[0, 10]` and the
exactly equidistant target `5`, `find_snapshot_at_time` returns index 1 (the
LATER sample), whereas the claim's rule — `claimedNearest`, ties toward the
earlier sample via `≤` — prescribes index 0. -/
theorem find_nearest_counterexample :
    TimeTravel.find_snapshot_at_time
        ⟨[(F64.finite 0, sampleSnapshot), (F64.finite 10, sampleSnapshot)],
          F64.finite 0⟩ (F64.finite 5) = some 1 ∧
    claimedNearest [0, 10] 5 = some 0 := by
  constructor
  · obtain ⟨L, hL4, h1, h2, heq⟩ := find_spec
      [((0 : ℚ), sampleSnapshot), ((10 : ℚ), sampleSnapshot)] 5 (F64.finite 0)
      (by simp) (by norm_num [List.sorted_cons])
    have hq0 : (([((0 : ℚ), sampleSnapshot), ((10 : ℚ), sampleSnapshot)]).map
        Prod.fst).getD 0 0 = 0 := rfl
    have hq1 : (([((0 : ℚ), sampleSnapshot), ((10 : ℚ), sampleSnapshot)]).map
        Prod.fst).getD 1 0 = 10 := rfl
    have hlen : ([((0 : ℚ), sampleSnapshot), ((10 : ℚ), sampleSnapshot)]).length = 2 :=
      rfl
    have hL1 : L = 1 := by
      rcases Nat.lt_or_ge L 1 with h | h
      · exfalso
        have h5 := h2 0 (by omega) (by omega)
        rw [hq0] at h5
        norm_num at h5
      · rcases Nat.lt_or_ge L 2 with h' | h'
        · omega
        · exfalso
          have h5 := h1 1 (by omega)
          rw [hq1] at h5
          norm_num at h5
    rw [hL1] at heq
    rw [show ([((0 : ℚ), sampleSnapshot), ((10 : ℚ), sampleSnapshot)]).map
        (fun p => (F64.finite p.1, p.2))
      = [(F64.finite 0, sampleSnapshot), (F64.finite 10, sampleSnapshot)] from rfl]
      at heq
    rw [heq, if_neg (by omega), if_neg (by rw [hlen]; omega),
      if_neg (by rw [hq0, hq1]; norm_num)]
  · rw [claimedNearest, if_neg (by simp)]
    dsimp only
    rw [show (([(0 : ℚ), 10]).takeWhile (fun q => decide (q < 5))).length = 1 from rfl]
    rw [if_neg (by omega), if_neg (by simp),
      if_pos (by rw [show ([(0 : ℚ), 10].getD 0 0) = 0 from rfl,
        show ([(0 : ℚ), 10].getD 1 0) = 10 from rfl]; norm_num)]

/-- C4 (amended): for every non-empty `TimeTravel` store whose (finite)
times are sorted ascending and every finite target, `find_snapshot_at_time`
computes the insertion point `L` of the target — characterized by: every
time before index `L` is `< target` and every time from `L` on is
`≥ target` — and returns `0` if `L = 0`; `len-1` if `L = len`; otherwise
`L-1` when `|times[L-1]-target| < |times[L]-target|` and `L` otherwise — in
particular, when the target is exactly equidistant between `times[L-1]` and
`times[L]`, the LATER index `L` is returned (not `L-1` as the claim
states). -/
theorem find_nearest_amended (l : List (ℚ × PackedSnapshot)) (t : ℚ) (ct : F64)
    (hne : l ≠ []) (hs : (l.map Prod.fst).Sorted (· ≤ ·)) :
    ∃ L, L ≤ l.length ∧
      (∀ i, i < L → (l.map Prod.fst).getD i 0 < t) ∧
      (∀ i, L ≤ i → i < l.length → t ≤ (l.map Prod.fst).getD i 0) ∧
      TimeTravel.find_snapshot_at_time
          ⟨l.map (fun p => (F64.finite p.1, p.2)), ct⟩ (F64.finite t)
        = some (if L = 0 then 0
            else if L = l.length then l.length - 1
            else if |(l.map Prod.fst).getD (L - 1) 0 - t|
                < |(l.map Prod.fst).getD L 0 - t| then L - 1
            else L) :=
  find_spec l t ct hne hs

/-- Witness for C4 (amended): the two-sample store `[0, 10]` with target 7. -/
theorem find_nearest_amended_witness :
    ∃ L, L ≤ ([((0 : ℚ), sampleSnapshot), ((10 : ℚ), sampleSnapshot)]).length ∧
      (∀ i, i < L →
        (([((0 : ℚ), sampleSnapshot), ((10 : ℚ), sampleSnapshot)]).map
          Prod.fst).getD i 0 < 7) ∧
      (∀ i, L ≤ i →
        i < ([((0 : ℚ), sampleSnapshot), ((10 : ℚ), sampleSnapshot)]).length →
        (7 : ℚ) ≤ (([((0 : ℚ), sampleSnapshot), ((10 : ℚ), sampleSnapshot)]).map
          Prod.fst).getD i 0) ∧
      TimeTravel.find_snapshot_at_time
          ⟨([((0 : ℚ), sampleSnapshot), ((10 : ℚ), sampleSnapshot)]).map
            (fun p => (F64.finite p.1, p.2)), F64.finite 0⟩ (F64.finite 7)
        = some (if L = 0 then 0
            else if L = ([((0 : ℚ), sampleSnapshot), ((10 : ℚ), sampleSnapshot)]).length
              then ([((0 : ℚ), sampleSnapshot), ((10 : ℚ), sampleSnapshot)]).length - 1
            else if |(([((0 : ℚ), sampleSnapshot), ((10 : ℚ), sampleSnapshot)]).map
                Prod.fst).getD (L - 1) 0 - 7|
                < |(([((0 : ℚ), sampleSnapshot), ((10 : ℚ), sampleSnapshot)]).map
                Prod.fst).getD L 0 - 7| then L - 1
            else L) :=
  find_nearest_amended [((0 : ℚ), sampleSnapshot), ((10 : ℚ), sampleSnapshot)] 7
    (F64.finite 0) (by simp) (by norm_num [List.sorted_cons])

end Tx2Pack
